import Mathlib

/-!
Shallow embedding of the grid utilities (`src/days/util.rs`), the day-16
turn-penalized search (`src/days/day16.rs`) and the day-21 keypad router
(`src/days/day21.rs`), together with theorems settling the specification
claims about them.  Rust `usize` values are modelled as `Nat` (with
`usize::MAX` as an explicit sentinel constant), `isize` as `Int`,
`Result<T, ()>` and panics as `Option`, and the unbounded search loops as
fuelled recursion with fuel large enough for the inputs considered.
-/

namespace AoC

set_option maxRecDepth 100000
set_option maxHeartbeats 8000000


/-- The four cardinal directions (`Direction` in `days/util.rs`). -/
inductive Direction where
  | North
  | East
  | South
  | West
deriving DecidableEq, Repr

namespace Direction

/-- `Direction::ALL`. -/
def ALL : List Direction := [North, East, South, West]

/-- `Direction::symbol`. -/
def symbol : Direction → Char
  | North => '^'
  | East => '>'
  | South => 'v'
  | West => '<'

/-- `Direction::rotate90`. -/
def rotate90 : Direction → Direction
  | North => East
  | East => South
  | South => West
  | West => North

/-- `Direction::rotate180`. -/
def rotate180 : Direction → Direction
  | North => South
  | East => West
  | South => North
  | West => East

/-- `Direction::rotate270`. -/
def rotate270 : Direction → Direction
  | North => West
  | East => North
  | South => East
  | West => South

/-- `Direction::mask`: one bit per direction. -/
def mask : Direction → Nat
  | North => 1
  | East => 2
  | South => 4
  | West => 8

/-- `Direction::from_mask`: the directions whose bit is set, in `N,E,S,W` order. -/
def from_mask (m : Nat) : List Direction :=
  ((List.range 4).filter (fun shift => m &&& (1 <<< shift) != 0)).map
    (fun shift =>
      match shift with
      | 0 => North
      | 1 => East
      | 2 => South
      | _ => West)

end Direction

/-- A 2-dimensional coordinate (`Coordinate(isize, isize)` in `days/util.rs`),
with `x` the first and `y` the second component. -/
structure Coordinate where
  x : Int
  y : Int
deriving DecidableEq, Repr

instance : Add Coordinate where
  add a b := ⟨a.x + b.x, a.y + b.y⟩

instance : Sub Coordinate where
  sub a b := ⟨a.x - b.x, a.y - b.y⟩

/-- The unit coordinate of a direction (`impl Into<Coordinate> for Direction`);
north is `(0, -1)` because `y` grows downwards. -/
def Direction.toCoordinate : Direction → Coordinate
  | .North => ⟨0, -1⟩
  | .East => ⟨1, 0⟩
  | .South => ⟨0, 1⟩
  | .West => ⟨-1, 0⟩

/-- A character grid (`Grid` in `days/util.rs`): a flat row-major cell list
plus the width taken from the first input row. -/
structure Grid where
  char_map : List Char
  width : Nat
deriving DecidableEq, Repr

namespace Grid

/-- `Grid::index_to_coordinate`: `(index % width, index / width)`. -/
def index_to_coordinate (g : Grid) (index : Nat) : Coordinate :=
  ⟨((index % g.width : Nat) : Int), ((index / g.width : Nat) : Int)⟩

/-- `Grid::coordinate_to_index`: fails on negative components, `x ≥ width`,
or a flat index at or beyond the cell count. -/
def coordinate_to_index (g : Grid) (c : Coordinate) : Option Nat :=
  if c.x < 0 ∨ c.y < 0 ∨ (g.width : Int) ≤ c.x then
    none
  else
    let index := c.x.toNat + c.y.toNat * g.width
    if g.char_map.length ≤ index then none else some index

/-- `Grid::offset_index`: coordinate round trip composed with an offset. -/
def offset_index (g : Grid) (index : Nat) (offset : Coordinate) : Option Nat :=
  g.coordinate_to_index (g.index_to_coordinate index + offset)

end Grid

/-- Split a character list at newline characters (`str::lines`; the trailing
carriage returns and empty trailing line are removed by the trimming and
non-empty filtering every caller performs right after). -/
def splitLinesAux : List Char → List Char → List (List Char)
  | [], acc => [acc.reverse]
  | c :: rest, acc =>
    if c = '\n' then acc.reverse :: splitLinesAux rest []
    else splitLinesAux rest (c :: acc)

/-- Split an input string (as a character list) into lines. -/
def splitLines (s : List Char) : List (List Char) := splitLinesAux s []

/-- `str::trim`: drop whitespace from both ends. -/
def trim (l : List Char) : List Char :=
  ((l.dropWhile Char.isWhitespace).reverse.dropWhile Char.isWhitespace).reverse

/-- The preprocessing shared by the grid parsers: split into lines, trim each
line, and keep the non-empty ones. -/
def preprocessLines (s : List Char) : List (List Char) :=
  ((splitLines s).map trim).filter (fun line => !line.isEmpty)

/-- `Grid::from_str` (`impl FromStr for Grid`): width is the length of the
first trimmed non-empty line, the cells are all lines concatenated; empty
input is the only error. -/
def Grid.from_str (s : List Char) : Option Grid :=
  let preprocessed := preprocessLines s
  match preprocessed with
  | [] => none
  | line :: _ => some { char_map := preprocessed.flatten, width := line.length }

/-- The `usize::MAX` sentinel used by the searches. -/
def USIZE_MAX : Nat := 2 ^ 64 - 1

/-- A day-16 search state (`State` in `day16.rs`). -/
structure State where
  position : Nat
  score : Nat
  facing : Direction
deriving DecidableEq, Repr

/-- The `Ord for State` maximum: `a` pops before `b` when `a` has the smaller
score, or equal scores and the larger position (the heap is a max-heap over
the score-reversed order, so this is the element `BinaryHeap::pop` yields). -/
def State.popsBefore (a b : State) : Bool :=
  a.score < b.score || (a.score == b.score && b.position < a.position)

/-- Pop the greatest element of the modelled `BinaryHeap`: the state that pops
first under the `State` order, taking the earliest-pushed one among full ties
(the tie order among equal `(score, position)` entries is unspecified in the
source; any choice is deterministic here and never affects the results). -/
def heapPop (heap : List State) : Option (State × List State) :=
  match heap with
  | [] => none
  | first :: rest =>
    let best := rest.foldl (fun acc s => if State.popsBefore s acc then s else acc) first
    some (best, heap.erase best)

/-- The parsed day-16 input (`Input` in `day16.rs`); the source field `end`
is a reserved word here and is called `endPos`. -/
structure Day16Input where
  map : Grid
  start : Nat
  endPos : Nat
deriving DecidableEq, Repr

/-- One relaxation step of `Input::find_score`: try every direction from the
popped state, skipping the 180-degree turn, walls and out-of-bounds moves,
scoring `+1` straight ahead and `+1001` otherwise, recording and pushing
strict improvements. -/
def findScoreStep (g : Grid) (st : State) (acc : List Nat × List State)
    (direction : Direction) : List Nat × List State :=
  if direction = st.facing.rotate180 then acc
  else
    let score := if direction = st.facing then st.score + 1 else st.score + 1001
    match g.offset_index st.position direction.toCoordinate with
    | none => acc
    | some position =>
      if g.char_map.getD position ' ' = '#' then acc
      else if score < (acc.1).getD position 0 then
        ((acc.1).set position score,
          acc.2 ++ [{ position := position, score := score, facing := direction }])
      else acc

/-- The main loop of `Input::find_score`, with explicit fuel standing in for
the unbounded Rust loop. -/
def findScoreLoop (g : Grid) (endPos : Nat) :
    Nat → List Nat → List State → Option Nat
  | 0, _, _ => none
  | fuel + 1, scores, heap =>
    match heapPop heap with
    | none => none
    | some (st, heap) =>
      if st.position = endPos then some st.score
      else if scores.getD st.position 0 < st.score then
        findScoreLoop g endPos fuel scores heap
      else
        let next := Direction.ALL.foldl (findScoreStep g st) (scores, heap)
        findScoreLoop g endPos fuel next.1 next.2

/-- `Input::find_score`: Dijkstra-style search from the start facing east,
returning the score of the first pop of the end position.  The fuel bounds
the loop; it is far above the iteration count on every input considered. -/
def find_score (inp : Day16Input) : Option Nat :=
  let scores := (List.replicate inp.map.char_map.length USIZE_MAX).set inp.start 0
  findScoreLoop inp.map inp.endPos (4096 * (inp.map.char_map.length + 1))
    scores [{ position := inp.start, score := 0, facing := Direction.East }]

/-- One relaxation step of the forward phase of `Input::count_best_paths`:
like `findScoreStep` but also recording, for every reachable neighbour, the
mask bit of the direction pointing back at the popped state. -/
def countBestStep (g : Grid) (st : State) (acc : List (Nat × Nat) × List State)
    (direction : Direction) : List (Nat × Nat) × List State :=
  if direction = st.facing.rotate180 then acc
  else
    let score := if direction = st.facing then st.score + 1 else st.score + 1001
    match g.offset_index st.position direction.toCoordinate with
    | none => acc
    | some position =>
      if g.char_map.getD position ' ' = '#' then acc
      else
        let entry := (acc.1).getD position (0, 0)
        let scores := (acc.1).set position
          (entry.1, entry.2 ||| direction.rotate180.mask)
        if score < entry.1 then
          (scores.set position (score, entry.2 ||| direction.rotate180.mask),
            acc.2 ++ [{ position := position, score := score, facing := direction }])
        else (scores, acc.2)

/-- The forward loop of `Input::count_best_paths`: run until the heap is
exhausted or the popped score exceeds the best score recorded at the end
position, returning the final score-and-mask array. -/
def countBestLoop (g : Grid) (endPos : Nat) :
    Nat → List (Nat × Nat) → List State → Option (List (Nat × Nat))
  | 0, _, _ => none
  | fuel + 1, scores, heap =>
    match heapPop heap with
    | none => some scores
    | some (st, heap) =>
      if (scores.getD endPos (0, 0)).1 < st.score then some scores
      else if (scores.getD st.position (0, 0)).1 < st.score then
        countBestLoop g endPos fuel scores heap
      else
        let next := Direction.ALL.foldl (countBestStep g st) (scores, heap)
        countBestLoop g endPos fuel next.1 next.2

/-- The neighbours enqueued by one backward-walk step of
`Input::count_best_paths`, in mask order; `none` models the `unwrap` panic
on an invalid offset. -/
def backStep (g : Grid) (scores : List (Nat × Nat)) (el : Nat)
    (previous : Option Direction) :
    List Direction → Option (List (Nat × Option Direction))
  | [] => some []
  | direction :: rest => do
    let tail ← backStep g scores el previous rest
    match g.offset_index el direction.toCoordinate with
    | none => none
    | some position =>
      let tolerance := if previous = some direction then 1000 else 0
      if (scores.getD position (0, 0)).1 < (scores.getD el (0, 0)).1 + tolerance then
        some ((position, some direction) :: tail)
      else some tail

/-- The backward walk of `Input::count_best_paths`: a FIFO queue from the end
position following recorded arrival-direction masks, marking visited cells. -/
def backLoop (g : Grid) (scores : List (Nat × Nat)) :
    Nat → List (Nat × Option Direction) → List Bool → Option (List Bool)
  | 0, _, _ => none
  | fuel + 1, queue, smap =>
    match queue with
    | [] => some smap
    | (el, previous) :: queue => do
      let smap := smap.set el true
      let mask := (scores.getD el (0, 0)).2
      let adds ← backStep g scores el previous (Direction.from_mask mask)
      backLoop g scores fuel (queue ++ adds) smap

/-- `Input::count_best_paths`: the forward search with arrival masks followed
by the tolerance-guided backward walk; the answer is the number of marked
cells. -/
def count_best_paths (inp : Day16Input) : Option Nat := do
  let scores := (List.replicate inp.map.char_map.length ((USIZE_MAX, 0) : Nat × Nat)).set
    inp.start (0, 0)
  let scores ← countBestLoop inp.map inp.endPos
    (4096 * (inp.map.char_map.length + 1)) scores
    [{ position := inp.start, score := 0, facing := Direction.East }]
  let smap ← backLoop inp.map scores (4096 * (inp.map.char_map.length + 1))
    [(inp.endPos, none)] (List.replicate inp.map.char_map.length false)
  return (smap.filter id).length

/-- `impl FromStr for Input` in `day16.rs`: parse the grid and find the first
`S` and `E` cells. -/
def day16_parse (s : List Char) : Option Day16Input := do
  let map ← Grid.from_str s
  let start ← map.char_map.findIdx? (· = 'S')
  let endPos ← map.char_map.findIdx? (· = 'E')
  return { map := map, start := start, endPos := endPos }

/-- The end cell reached by following a list of moves from a cell, or `none`
when a move leaves the grid or lands on a wall: the wall-avoiding path notion
of the day-16 specification, expressed over the grid primitives of the code. -/
def pathEnd (g : Grid) (pos : Nat) : List Direction → Option Nat
  | [] => some pos
  | d :: rest =>
    match g.offset_index pos d.toCoordinate with
    | none => none
    | some next =>
      if g.char_map.getD next ' ' = '#' then none else pathEnd g next rest

/-- The turn-penalized cost of a move list as the specification states it:
a step continuing in the current facing costs 1 and a step in any other
direction costs 1001, starting from the given initial facing. -/
def pathCost : Direction → List Direction → Nat
  | _, [] => 0
  | facing, d :: rest => (if d = facing then 1 else 1001) + pathCost d rest

/-- A maze on which the position-keyed pruning of `find_score` discards the
state a cheapest path runs through: two corridors meet two cells above the
goal corridor, one arriving facing east at cost 8020 and one arriving facing
south at cost 9018, and only the latter can continue straight south. -/
def c1Maze : String :=
  "###############\n#S..###########\n#.#...#########\n#.###...#######\n#.#####...#####\n#.#######....##\n#....#######.##\n####.##...##.##\n####....#....##\n############.##\n############E##\n###############\n###############"

/-- The parse of `c1Maze`: a 15-wide grid, start index 16, end index 162. -/
def c1Input : Day16Input :=
  { map := { char_map := (preprocessLines c1Maze.toList).flatten, width := 15 },
    start := 16, endPos := 162 }

/-- A cheapest route through `c1Maze`: the east-then-south staircase, nine
turns and twenty moves, total cost 9020. -/
def c1Path : List Direction :=
  [.East, .East, .South, .East, .East, .South, .East, .East, .South,
    .East, .East, .South, .East, .East, .East, .South, .South, .South,
    .South, .South]

/-- The 15×15 reference maze of the day-16 tests (`example_1_input`). -/
def example1Maze : String :=
  "###############\n#.......#....E#\n#.#.###.#.###.#\n#.....#.#...#.#\n#.###.#####.#.#\n#.#.#.......#.#\n#.#.#####.###.#\n#...........#.#\n###.#.#####.#.#\n#...#.....#.#.#\n#.#.#.###.#.#.#\n#.....#...#.#.#\n#.###.#.#.#.#.#\n#S..#.....#...#\n###############"

/-- The parse of `example1Maze`: start index 196 (row 13, column 1) and end
index 28 (row 1, column 13) in a 15×15 grid. -/
def example1Input : Day16Input :=
  { map := { char_map := (preprocessLines example1Maze.toList).flatten, width := 15 },
    start := 196, endPos := 28 }

/-- `Leg(Direction, usize)`: one straight segment of a keypad move. -/
structure Leg where
  direction : Direction
  distance : Nat
deriving DecidableEq, Repr

/-- `Route`: the compact encoding of one button-to-button move, including the
trailing activation press. -/
inductive Route where
  | Empty (count : Nat)
  | Direct (leg : Leg)
  | Segmented (first second : Leg) (reversible : Bool)
deriving DecidableEq, Repr

namespace Route

/-- `Route::len`: the number of keystrokes the route stands for. -/
def len : Route → Nat
  | Empty count => count
  | Direct ⟨_, distance⟩ => distance + 1
  | Segmented ⟨_, first_distance⟩ ⟨_, second_distance⟩ _ =>
    first_distance + second_distance + 1

/-- `Route::reversible`. -/
def reversible : Route → Bool
  | Segmented _ _ r => r
  | _ => false

/-- `Route::reverse`: swap the legs of a reversible segmented route.  The
source panics on any other shape; the function is only ever applied to
reversible routes, and the fallthrough arm (identity) is never reached. -/
def reverse : Route → Route
  | Segmented first second true => Segmented second first true
  | r => r

end Route

/-- `RouteChars`: the keystroke iterator over one route. -/
structure RouteChars where
  route : Route
  finished : Bool
deriving DecidableEq, Repr

/-- `RouteChars::new`. -/
def RouteChars.new (route : Route) : RouteChars := ⟨route, false⟩

/-- `Route::chars`. -/
def Route.chars (r : Route) : RouteChars := RouteChars.new r

/-- `Iterator for RouteChars`: emit the remaining distance of the current leg
as direction symbols, then the trailing `A`.  In the exhausted-`Empty` arm the
source flips `finished` and returns `None`; returning `none` here likewise
ends the stream. -/
def RouteChars.next : RouteChars → Option (Char × RouteChars)
  | ⟨route, finished⟩ =>
    if finished then none
    else
      match route with
      | .Empty count =>
        if count ≠ 0 then some ('A', ⟨.Empty (count - 1), finished⟩)
        else none
      | .Direct ⟨direction, distance⟩ =>
        if distance ≠ 0 then
          some (direction.symbol, ⟨.Direct ⟨direction, distance - 1⟩, finished⟩)
        else some ('A', ⟨route, true⟩)
      | .Segmented ⟨direction1, distance1⟩ ⟨direction2, distance2⟩ rev =>
        if distance1 ≠ 0 then
          some (direction1.symbol,
            ⟨.Segmented ⟨direction1, distance1 - 1⟩ ⟨direction2, distance2⟩ rev, finished⟩)
        else if distance2 ≠ 0 then
          some (direction2.symbol,
            ⟨.Segmented ⟨direction1, distance1⟩ ⟨direction2, distance2 - 1⟩ rev, finished⟩)
        else some ('A', ⟨route, true⟩)

/-- Termination measure for exhausting a `RouteChars` iterator. -/
def RouteChars.size (rc : RouteChars) : Nat :=
  (match rc.route with
   | .Empty c => c
   | .Direct ⟨_, d⟩ => d
   | .Segmented ⟨_, a⟩ ⟨_, b⟩ _ => a + b) + (if rc.finished then 0 else 1)

/-- Exhaust a `RouteChars` iterator with explicit fuel. -/
def RouteChars.emitFuel : Nat → RouteChars → List Char
  | 0, _ => []
  | fuel + 1, rc =>
    match rc.next with
    | none => []
    | some (c, rc2) => c :: RouteChars.emitFuel fuel rc2

/-- Exhaust a `RouteChars` iterator into the character list it emits: the
measure bounds the number of emitted characters, so this fuel always
suffices. -/
def RouteChars.emit (rc : RouteChars) : List Char :=
  RouteChars.emitFuel (rc.size + 1) rc

/-- The generic arm of both `route_to_coordinate` implementations: the match
on the displacement `(dx, dy)` shared verbatim by `NumericKeypad` and
`DirectionalKeypad`. -/
def routeFromDelta (distance : Coordinate) : Route :=
  if distance.x = 0 ∧ distance.y = 0 then .Empty 1
  else if distance.y = 0 ∧ 0 < distance.x then .Direct ⟨.East, distance.x.toNat⟩
  else if distance.y = 0 ∧ distance.x < 0 then .Direct ⟨.West, (-distance.x).toNat⟩
  else if distance.x = 0 ∧ 0 < distance.y then .Direct ⟨.South, distance.y.toNat⟩
  else if distance.x = 0 ∧ distance.y < 0 then .Direct ⟨.North, (-distance.y).toNat⟩
  else
    let x_leg := if distance.x < 0 then Leg.mk .West (-distance.x).toNat
      else Leg.mk .East distance.x.toNat
    let y_leg := if distance.y < 0 then Leg.mk .North (-distance.y).toNat
      else Leg.mk .South distance.y.toNat
    .Segmented x_leg y_leg true

namespace NumericKeypad

/-- `NumericKeypad::START`: the `A` key of the numeric pad. -/
def START : Coordinate := ⟨2, 3⟩

/-- `NumericKeypad::input_to_coordinate`; the panic on other characters is
modelled as `none`. -/
def input_to_coordinate (input : Char) : Option Coordinate :=
  if input = 'A' then some ⟨2, 3⟩
  else if input = '0' then some ⟨1, 3⟩
  else if '1' ≤ input ∧ input ≤ '9' then
    let next : Int := (input.toNat : Int) - ('1'.toNat : Int)
    some ⟨next % 3, 2 - next / 3⟩
  else none

/-- `NumericKeypad::coordinate_to_input`; the panic on positions outside the
pad (including the gap corner `(0, 3)`) is modelled as `none`. -/
def coordinate_to_input (c : Coordinate) : Option Char :=
  if c.x < 0 ∨ 2 < c.x ∨ c.y < 0 ∨ 3 < c.y ∨ (c.x = 0 ∧ c.y = 3) then none
  else
    some ((([['7', '8', '9'], ['4', '5', '6'], ['1', '2', '3'],
      [' ', '0', 'A']].getD c.y.toNat []).getD c.x.toNat ' '))

/-- `NumericKeypad::route_to_coordinate`: the gap-avoiding special cases for
moves between the left column and the bottom row, then the generic match. -/
def route_to_coordinate (frm tgt : Coordinate) : Route :=
  let distance := tgt - frm
  if frm.x = 0 ∧ tgt.y = 3 then
    .Segmented ⟨.East, distance.x.natAbs⟩ ⟨.South, distance.y.natAbs⟩ false
  else if frm.y = 3 ∧ tgt.x = 0 then
    .Segmented ⟨.North, distance.y.natAbs⟩ ⟨.West, distance.x.natAbs⟩ false
  else routeFromDelta distance

end NumericKeypad

namespace DirectionalKeypad

/-- `DirectionalKeypad::START`: the `A` key of the directional pad. -/
def START : Coordinate := ⟨2, 0⟩

/-- `DirectionalKeypad::input_to_coordinate`; panic modelled as `none`. -/
def input_to_coordinate (input : Char) : Option Coordinate :=
  if input = '^' then some ⟨1, 0⟩
  else if input = 'A' then some ⟨2, 0⟩
  else if input = '<' then some ⟨0, 1⟩
  else if input = 'v' then some ⟨1, 1⟩
  else if input = '>' then some ⟨2, 1⟩
  else none

/-- `DirectionalKeypad::coordinate_to_input`; panic modelled as `none`. -/
def coordinate_to_input (c : Coordinate) : Option Char :=
  if c = ⟨1, 0⟩ then some '^'
  else if c = ⟨2, 0⟩ then some 'A'
  else if c = ⟨0, 1⟩ then some '<'
  else if c = ⟨1, 1⟩ then some 'v'
  else if c = ⟨2, 1⟩ then some '>'
  else none

/-- `DirectionalKeypad::route_to_coordinate`: the gap-avoiding special cases
for moves between the left key and the top row, then the generic match. -/
def route_to_coordinate (frm tgt : Coordinate) : Route :=
  let distance := tgt - frm
  if frm.x = 0 ∧ tgt.y = 0 then
    .Segmented ⟨.East, distance.x.natAbs⟩ ⟨.North, distance.y.natAbs⟩ false
  else if frm.y = 0 ∧ tgt.x = 0 then
    .Segmented ⟨.South, distance.y.natAbs⟩ ⟨.West, distance.x.natAbs⟩ false
  else routeFromDelta distance

/-- The pad position of a direction key: `input_to_coordinate` applied to the
direction's symbol, which is always one of the valid pad characters. -/
def direction_target : Direction → Coordinate
  | .North => ⟨1, 0⟩
  | .East => ⟨2, 1⟩
  | .South => ⟨1, 1⟩
  | .West => ⟨0, 1⟩

/-- `Iterator for DirectionalKeypad` on one incoming route: the routes the
cursor follows one layer up, in emission order (the source pushes them onto a
stack in reverse and pops).  A `Direct` leg becomes go-press, repeat presses,
and return; a `Segmented` route visits both direction keys. -/
def expandRoute : Route → List Route
  | .Empty count => [.Empty count]
  | .Direct ⟨direction, distance⟩ =>
    let target := direction_target direction
    let route := route_to_coordinate START target
    let back := route_to_coordinate target START
    [route] ++ (if 1 < distance then [Route.Empty (distance - 1)] else []) ++ [back]
  | .Segmented ⟨direction1, distance1⟩ ⟨direction2, distance2⟩ _ =>
    let target1 := direction_target direction1
    let target2 := direction_target direction2
    let route1 := route_to_coordinate START target1
    let route2 := route_to_coordinate target1 target2
    let back := route_to_coordinate target2 START
    [route1] ++ (if 1 < distance1 then [Route.Empty (distance1 - 1)] else []) ++
      [route2] ++ (if 1 < distance2 then [Route.Empty (distance2 - 1)] else []) ++ [back]

/-- Collect the whole expanded layer (`DirectionalKeypad::new(..).collect()`). -/
def expand (routes : List Route) : List Route :=
  (routes.map expandRoute).flatten

end DirectionalKeypad

/-- The `NumericKeypad` iterator collected into a route list: walk the code
characters from the `A` start key, one route per press; `none` models the
panic on characters outside the pad. -/
def collectNumericRoutes : Coordinate → List Char → Option (List Route)
  | _, [] => some []
  | current, c :: rest => do
    let target ← NumericKeypad.input_to_coordinate c
    let route := NumericKeypad.route_to_coordinate current target
    let tail ← collectNumericRoutes target rest
    return route :: tail

/-- `NumericKeypad::new(code.chars()).collect::<Vec<_>>()`. -/
def numericRoutes (code : List Char) : Option (List Route) :=
  collectNumericRoutes NumericKeypad.START code

/-- `Combination`: one choice of leg orderings over a shared route slice,
identified (as in the source `PartialEq`/`Hash`) by the slice and the
`variants` bitmask; `len` is the precomputed total keystroke count. -/
structure Combination where
  len : Nat
  parts : List Route
  variants : Nat
deriving DecidableEq, Repr

/-- Equality of combinations as in the source: same `parts` and same
`variants` (`len` is derived from `parts`); `variants` is compared first,
which is equivalent and cheap. -/
instance : BEq Combination :=
  ⟨fun a b => a.variants == b.variants && a.parts == b.parts && a.len == b.len⟩

/-- `Combination::new`: record the slice, the variant mask and the summed
length. -/
def Combination.new (parts : List Route) (variants : Nat) : Combination :=
  { len := (parts.map Route.len).sum, parts := parts, variants := variants }

/-- `Iterator for Combination`, exhausted: walk the routes with the moving
`current_variance` bit; a reversible route whose bit is set is emitted
reversed and the bit is (as in the source) not advanced, otherwise the bit
advances past the reversible route. -/
def Combination.emitAux (variants : Nat) : List Route → Nat → List Route
  | [], _ => []
  | route :: rest, current_variance =>
    if route.reversible then
      if variants &&& current_variance ≠ 0 then
        route.reverse :: Combination.emitAux variants rest current_variance
      else route :: Combination.emitAux variants rest (current_variance <<< 1)
    else route :: Combination.emitAux variants rest current_variance

/-- The route sequence a combination emits. -/
def Combination.emit (c : Combination) : List Route :=
  Combination.emitAux c.variants c.parts 1

/-- `Combinations::new` and its iterator, exhausted: one combination per
`variants` value from `0` up to and including
`if k > 0 { 1 << (k - 1) } else { 0 }`, `k` the number of reversible
routes. -/
def Combinations.list (parts : List Route) : List Combination :=
  let combinations := (parts.filter Route.reversible).length
  let mx := if 0 < combinations then 1 <<< (combinations - 1) else 0
  (List.range (mx + 1)).map (Combination.new parts)

/-- `Itertools::unique`: keep the first occurrence of each element. -/
def uniqueAux {α : Type} [BEq α] : List α → List α → List α
  | [], _ => []
  | x :: rest, seen =>
    if seen.contains x then uniqueAux rest seen
    else x :: uniqueAux rest (x :: seen)

/-- `Itertools::unique` over a list. -/
def unique {α : Type} [BEq α] (l : List α) : List α := uniqueAux l []

/-- `Itertools::min_set_by` on the combination length: every element
attaining the minimal length, in encounter order. -/
def min_set_by_len (l : List Combination) : List Combination :=
  match l with
  | [] => []
  | x :: _ =>
    let m := l.foldl (fun acc c => Nat.min acc c.len) x.len
    l.filter (fun c => c.len = m)

/-- `Vec::pop`: remove and return the last element. -/
def popBack {α : Type} (l : List α) : Option (α × List α) :=
  match l.getLast? with
  | none => none
  | some x => some (x, l.dropLast)

/-- The inner `while let Some(combination) = current.pop()` loop of
`process_part1`: expand each popped combination one directional layer,
filter against the best length seen in `next`, deduplicate, keep the ming
set, and either extend or restart `next` with it.  The fuel is the number of
pops plus one. -/
def part1Inner : Nat → List Combination → List Combination → List Combination
  | 0, _, next => next
  | fuel + 1, current, next =>
    match popBack current with
    | none => next
    | some (combination, current) =>
      let min_length := (next.map Combination.len).foldl Nat.min USIZE_MAX
      let parts := DirectionalKeypad.expand combination.emit
      let combinations :=
        min_set_by_len (unique ((Combinations.list parts).filter
          (fun c => c.len ≤ min_length)))
      match combinations with
      | [] => part1Inner fuel current next
      | first :: _ =>
        let new_min_length := first.len
        if next.length = 0 ∨ min_length = new_min_length then
          part1Inner fuel current (next ++ combinations)
        else
          part1Inner fuel current combinations

/-- The number of directional-keypad layers `process_part1` folds
(`for generation in 0..2`). -/
def part1_generations : Nat := 2

/-- One code line of `process_part1`: seed the frontier with the minimal
numeric-keypad combinations, fold the layer expansion, and emit the first
surviving combination's keystrokes. -/
def part1_line (code : List Char) : Option (List Char) := do
  let parts ← numericRoutes code
  let combinations := Combinations.list parts
  let min_length ← (combinations.map Combination.len).min?
  let current := combinations.filter (fun c => c.len = min_length)
  let current := (List.range part1_generations).foldl
    (fun current _generation => part1Inner (current.length + 1) current []) current
  let first ← current.head?
  return ((first.emit.map (fun route => (route.chars).emit)).flatten)

/-- `str::parse::<usize>` on the digit-only strings that occur here. -/
def parseUsize (s : List Char) : Option Nat :=
  if s.isEmpty then none
  else if s.all Char.isDigit then
    some (s.foldl (fun acc c => 10 * acc + (c.toNat - '0'.toNat)) 0)
  else none

/-- The five hard-coded reference solutions `process_part1` zips the input
lines with (only their number matters: the zip truncates the input). -/
def part1_solutions : List String :=
  ["<vA<AA>>^AvAA<^A>A<v<A>>^AvA^A<vA>^A<v<A>^A>AAvA^A<v<A>A>^AAAvA<^A>A",
   "<v<A>>^AAAvA^A<vA<AA>>^AvAA<^A>A<v<A>A>^AAAvA<^A>A<vA>^A<A>A",
   "<v<A>>^A<vA<A>>^AAvAA<^A>A<v<A>>^AAvA^A<vA>^AA<A>A<v<A>A>^AAAvA<^A>A",
   "<v<A>>^AA<vA<A>>^AAvAA<^A>A<vA>^A<A>A<vA>^A<A>A<v<A>A>^AAvA<^A>A",
   "<v<A>>^AvA^A<vA<AA>>^AAvA<^A>AAvA^A<vA>^AA<A>A<v<A>A>^AAAvA<^A>A"]

/-- `process_part1`: zip the codes with the five reference solutions, and sum
numeric prefix times produced keystroke count over the zipped pairs. -/
def process_part1 (codes : List (List Char)) : Option Nat := do
  let results ← (codes.zip part1_solutions).mapM (fun pair => do
    let code_num ← parseUsize pair.1.dropLast
    let result ← part1_line pair.1
    return code_num * result.length)
  return results.sum

/-- The inner pop loop of `process_part2`: like part 1 but without the
dedup pass, and with `min_length` carried across pops, updated only when a
strictly different minimum restarts `next`. -/
def part2Inner : Nat → Nat → List Combination → List Combination → List Combination
  | 0, _, _, next => next
  | fuel + 1, min_length, current, next =>
    match popBack current with
    | none => next
    | some (steps, current) =>
      let parts := DirectionalKeypad.expand steps.emit
      let combinations :=
        min_set_by_len ((Combinations.list parts).filter (fun c => c.len ≤ min_length))
      match combinations with
      | [] => part2Inner fuel min_length current next
      | first :: _ =>
        let new_min_length := first.len
        if next.length = 0 ∨ min_length = new_min_length then
          part2Inner fuel min_length current (next ++ combinations)
        else
          part2Inner fuel new_min_length current combinations

/-- The number of directional-keypad layers `process_part2` folds
(`for generation in 0..26`). -/
def part2_generations : Nat := 26

/-- The frontier of one `process_part2` code line after folding the layer
expansion the given number of times. -/
def part2_line_frontier (generations : Nat) (code : List Char) :
    Option (List Combination) := do
  let parts ← numericRoutes code
  let combinations := Combinations.list parts
  let min_length ← (combinations.map Combination.len).min?
  let current := combinations.filter (fun c => c.len = min_length)
  return (List.range generations).foldl
    (fun current _generation => part2Inner (current.length + 1) USIZE_MAX current [])
    current

/-- `process_part2` with the generation count as a parameter. -/
def process_part2_gen (generations : Nat) (codes : List (List Char)) : Option Nat := do
  let results ← codes.mapM (fun code => do
    let code_num ← parseUsize code.dropLast
    let current ← part2_line_frontier generations code
    let first ← current.head?
    return code_num * first.len)
  return results.sum

/-- `process_part2` as in the source: 26 generations. -/
def process_part2 (codes : List (List Char)) : Option Nat :=
  process_part2_gen part2_generations codes

/-- `Simulate`: interpret a keystroke stream on a keypad, moving the cursor
on arrows and reading the keypad at the cursor on `A`; `none` models the
panics on invalid steps or positions.  The emitted list is the
`filter_map(identity)` view the source collects. -/
def simulateSteps (pad : Coordinate → Option Char) :
    Coordinate → List Char → Option (List Char)
  | _, [] => some []
  | pos, step :: rest =>
    if step = '^' then simulateSteps pad ⟨pos.x, pos.y - 1⟩ rest
    else if step = '>' then simulateSteps pad ⟨pos.x + 1, pos.y⟩ rest
    else if step = 'v' then simulateSteps pad ⟨pos.x, pos.y + 1⟩ rest
    else if step = '<' then simulateSteps pad ⟨pos.x - 1, pos.y⟩ rest
    else if step = 'A' then do
      let c ← pad pos
      let tail ← simulateSteps pad pos rest
      return c :: tail
    else none

/-- Type a press sequence through the day-21 chain: two directional keypads,
then the numeric keypad (the `simulated thrice` chain of the source). -/
def typedThroughChain (presses : List Char) : Option (List Char) := do
  let once ← simulateSteps DirectionalKeypad.coordinate_to_input
    DirectionalKeypad.START presses
  let twice ← simulateSteps DirectionalKeypad.coordinate_to_input
    DirectionalKeypad.START once
  simulateSteps NumericKeypad.coordinate_to_input NumericKeypad.START twice

/-- The five example codes of the day-21 tests. -/
def exampleCodes : List (List Char) :=
  ["029A".toList, "980A".toList, "179A".toList, "456A".toList, "379A".toList]

/-- A 76-keystroke outer sequence that types `430A` through the two nested
directional layers, 4 keystrokes fewer than the 80 the search settles on. -/
def c2OptimalSeq : String :=
  "v<<A>>^AA<vA<A>>^AAvAA<^A>Av<<A>A>^AvA^AA<A>A<vA<AA>>^AvA^AvA<^A>A<vA>^A<A>A"

/-- A route slice with exactly two reversible routes. -/
def c3Parts : List Route :=
  [Route.Segmented ⟨.East, 1⟩ ⟨.South, 1⟩ true,
   Route.Segmented ⟨.East, 1⟩ ⟨.North, 1⟩ true]

/-- One neighbour inspection inside the flood loop: follow the offset, and on
an in-bounds non-wall cell with a strictly larger stored distance, record the
new distance and enqueue the cell (`distances[position] = distance;
to_visit.push_back(..)`). -/
def floodExpand (g : Grid) (isWall : Char → Bool) (position distance : Nat)
    (acc : List Nat × List (Nat × Nat)) (direction : Direction) :
    List Nat × List (Nat × Nat) :=
  match g.offset_index position direction.toCoordinate with
  | none => acc
  | some position2 =>
    if distance < (acc.1).getD position2 0 then
      if isWall (g.char_map.getD position2 ' ') then acc
      else ((acc.1).set position2 distance, acc.2 ++ [(position2, distance)])
    else acc

/-- The `while let Some(..) = to_visit.pop_front()` loop of `Grid::flood`:
pop the front node, inspect all four neighbours at distance one more, and
continue; the fuel stands in for the unbounded loop and is proved sufficient
below. -/
def floodLoop (g : Grid) (isWall : Char → Bool) :
    Nat → List Nat → List (Nat × Nat) → List Nat
  | 0, distances, _ => distances
  | fuel + 1, distances, queue =>
    match queue with
    | [] => distances
    | (position, distance) :: queue =>
      let next := Direction.ALL.foldl
        (floodExpand g isWall position (distance + 1)) (distances, queue)
      floodLoop g isWall fuel next.1 next.2

/-- `Grid::flood`: breadth-first distances from `start`, `usize::MAX` for
unreached cells.  Each loop iteration either pops a queue entry pushed
earlier or stops on the empty queue, and every push marks a previously
unreached cell, so `len + 2` fuel always outlasts the loop. -/
def Grid.flood (g : Grid) (start : Nat) (isWall : Char → Bool) : List Nat :=
  let distances := (List.replicate g.char_map.length USIZE_MAX).set start 0
  floodLoop g isWall (g.char_map.length + 2) distances [(start, 0)]

/-- One wall-avoiding four-neighbour step of the flood specification: `q` is
an in-bounds neighbour of `p` through `offset_index` and is not a wall. -/
def FloodAdj (g : Grid) (isWall : Char → Bool) (p q : Nat) : Prop :=
  (∃ direction : Direction, g.offset_index p direction.toCoordinate = some q) ∧
    isWall (g.char_map.getD q ' ') = false

/-- `ReachN g isWall start n p`: the cell `p` is reachable from `start` in
exactly `n` wall-avoiding four-neighbour steps. -/
inductive ReachN (g : Grid) (isWall : Char → Bool) (start : Nat) : Nat → Nat → Prop where
  | refl : ReachN g isWall start 0 start
  | step {n p q : Nat} : ReachN g isWall start n p → FloodAdj g isWall p q →
      ReachN g isWall start (n + 1) q

/-- The number of cells already reached (non-sentinel entries). -/
def labeledCount (distances : List Nat) : Nat :=
  (distances.filter (fun v => v != USIZE_MAX)).length

/-- The invariant of the flood loop while the four neighbours of the popped
cell `p` (whose stored distance is `d`) are being expanded: queue entries
match their stored distances and sit in the band `[d, d+1]` in sorted order,
every stored distance is the true minimal step count, every reached cell
other than `p` either has all its neighbours reached or still waits in the
queue, and every stored distance is below the number of reached cells. -/
structure FloodMid (g : Grid) (isWall : Char → Bool) (start p d : Nat)
    (distances : List Nat) (queue : List (Nat × Nat)) : Prop where
  len_eq : distances.length = g.char_map.length
  start_zero : distances.getD start 0 = 0
  qmem : ∀ e ∈ queue, e.1 < g.char_map.length ∧
    distances.getD e.1 0 = e.2 ∧ e.2 ≠ USIZE_MAX
  qlow : ∀ e ∈ queue, d ≤ e.2
  qhigh : ∀ e ∈ queue, e.2 ≤ d + 1
  qsorted : (queue.map Prod.snd).Sorted (· ≤ ·)
  sound : ∀ r, r < g.char_map.length → distances.getD r 0 ≠ USIZE_MAX →
    IsLeast {n | ReachN g isWall start n r} (distances.getD r 0)
  closure : ∀ r, r < g.char_map.length → distances.getD r 0 ≠ USIZE_MAX → r ≠ p →
    (∀ q2, FloodAdj g isWall r q2 → distances.getD q2 0 ≠ USIZE_MAX) ∨
      (r, distances.getD r 0) ∈ queue
  count : ∀ r, r < g.char_map.length → distances.getD r 0 ≠ USIZE_MAX →
    distances.getD r 0 + 1 ≤ labeledCount distances

/-- The invariant of the flood loop between iterations: like `FloodMid` but
with no exempted cell, and with the band condition expressed pairwise (all
queued distances lie within one of each other, smallest first). -/
structure FloodTop (g : Grid) (isWall : Char → Bool) (start : Nat)
    (distances : List Nat) (queue : List (Nat × Nat)) : Prop where
  len_eq : distances.length = g.char_map.length
  start_zero : distances.getD start 0 = 0
  qmem : ∀ e ∈ queue, e.1 < g.char_map.length ∧
    distances.getD e.1 0 = e.2 ∧ e.2 ≠ USIZE_MAX
  qband : ∀ e1 ∈ queue, ∀ e2 ∈ queue, e1.2 ≤ e2.2 + 1
  qsorted : (queue.map Prod.snd).Sorted (· ≤ ·)
  sound : ∀ r, r < g.char_map.length → distances.getD r 0 ≠ USIZE_MAX →
    IsLeast {n | ReachN g isWall start n r} (distances.getD r 0)
  closure : ∀ r, r < g.char_map.length → distances.getD r 0 ≠ USIZE_MAX →
    (∀ q2, FloodAdj g isWall r q2 → distances.getD q2 0 ≠ USIZE_MAX) ∨
      (r, distances.getD r 0) ∈ queue
  count : ∀ r, r < g.char_map.length → distances.getD r 0 ≠ USIZE_MAX →
    distances.getD r 0 + 1 ≤ labeledCount distances

/-- What the flood fill is specified to compute: one distance per cell, zero
at the start, the minimal wall-avoiding step count on every reachable cell
and the `usize::MAX` sentinel on every unreachable one. -/
def FloodResult (g : Grid) (isWall : Char → Bool) (start : Nat)
    (result : List Nat) : Prop :=
  result.length = g.char_map.length ∧
  result.getD start 0 = 0 ∧
  ∀ p, p < g.char_map.length →
    ((∃ n, ReachN g isWall start n p) →
      IsLeast {n | ReachN g isWall start n p} (result.getD p 0)) ∧
    ((¬ ∃ n, ReachN g isWall start n p) → result.getD p 0 = USIZE_MAX)

/-- C1: the claim states that `find_score` returns the minimum turn-penalized
cost over all wall-avoiding paths from `S` (facing east) to `E`.  On `c1Maze`
the function returns `Some 9022` although the wall-avoiding path `c1Path`
reaches `E` at cost 9020, so the returned score is not the minimum: the
best-score array keyed by position alone discards the south-facing arrival
that the optimal path continues from. -/
theorem find_score_misses_cheaper_path :
    day16_parse c1Maze.toList = some c1Input ∧
    find_score c1Input = some 9022 ∧
    pathEnd c1Input.map c1Input.start c1Path = some c1Input.endPos ∧
    pathCost Direction.East c1Path = 9020 :=
  ⟨rfl, rfl, rfl, rfl⟩

/-- The reference fixture parses to the embedded `example1Input`. -/
theorem example1_parse : day16_parse example1Maze.toList = some example1Input :=
  rfl

/-- The forward search on the reference fixture returns 7036. -/
theorem example1_find_score : find_score example1Input = some 7036 := rfl

/-- The best-path cell count on the reference fixture is 45. -/
theorem example1_count_best : count_best_paths example1Input = some 45 := rfl

/-- C5: on the 15×15 reference maze fixture, `find_score` returns
`Some 7036` and `count_best_paths` returns 45, matching the repository's
`test_example_1_part1` and `test_example_1_part2` expectations. -/
theorem example1_scores :
    day16_parse example1Maze.toList = some example1Input ∧
    example1Input.map.width = 15 ∧
    example1Input.map.char_map.length = 15 * 15 ∧
    find_score example1Input = some 7036 ∧
    count_best_paths example1Input = some 45 :=
  ⟨example1_parse, rfl, rfl, example1_find_score, example1_count_best⟩

/-- C8: `coordinate_to_index` fails exactly when `x < 0`, `y < 0`,
`x ≥ width`, or the derived flat index `x + y·width` reaches the cell count;
otherwise it returns exactly that flat index. -/
theorem coordinate_to_index_spec (g : Grid) (c : Coordinate) :
    (g.coordinate_to_index c = none ↔
      c.x < 0 ∨ c.y < 0 ∨ (g.width : Int) ≤ c.x ∨
        (g.char_map.length : Int) ≤ c.x + c.y * (g.width : Int)) ∧
    (∀ i : Nat,
      g.coordinate_to_index c = some i ↔
        0 ≤ c.x ∧ 0 ≤ c.y ∧ c.x < (g.width : Int) ∧
          c.x + c.y * (g.width : Int) < (g.char_map.length : Int) ∧
          (i : Int) = c.x + c.y * (g.width : Int)) := by
  rcases c with ⟨x, y⟩
  dsimp only
  by_cases h1 : x < 0 ∨ y < 0 ∨ (g.width : Int) ≤ x
  · have hnone : g.coordinate_to_index ⟨x, y⟩ = none := by
      unfold Grid.coordinate_to_index
      exact if_pos h1
    refine ⟨⟨fun _ => ?_, fun _ => hnone⟩, fun i => ⟨fun hc => ?_, fun hc => ?_⟩⟩
    · tauto
    · rw [hnone] at hc
      cases hc
    · exfalso
      obtain ⟨hx, hy, hw, -, -⟩ := hc
      rcases h1 with h | h | h <;> omega
  · push_neg at h1
    obtain ⟨hx0, hy0, hw⟩ := h1
    obtain ⟨a, rfl⟩ : ∃ a : Nat, x = (a : Int) := ⟨x.toNat, by omega⟩
    obtain ⟨b, rfl⟩ : ∃ b : Nat, y = (b : Int) := ⟨y.toNat, by omega⟩
    have hcond : ¬((a : Int) < 0 ∨ (b : Int) < 0 ∨ (g.width : Int) ≤ (a : Int)) := by
      push_neg
      exact ⟨hx0, hy0, hw⟩
    have hidx : g.coordinate_to_index ⟨(a : Int), (b : Int)⟩ =
        if g.char_map.length ≤ a + b * g.width then none
        else some (a + b * g.width) := by
      unfold Grid.coordinate_to_index
      rw [if_neg hcond]
      simp
    by_cases h2 : g.char_map.length ≤ a + b * g.width
    · have h2i : (g.char_map.length : Int) ≤ (a : Int) + (b : Int) * (g.width : Int) := by
        exact_mod_cast h2
      rw [hidx, if_pos h2]
      refine ⟨⟨fun _ => Or.inr (Or.inr (Or.inr h2i)), fun _ => rfl⟩,
        fun i => ⟨fun hc => (nomatch hc), fun hc => ?_⟩⟩
      exfalso
      obtain ⟨-, -, -, hlt, -⟩ := hc
      exact absurd hlt (not_lt.mpr h2i)
    · push_neg at h2
      have h2i : (a : Int) + (b : Int) * (g.width : Int) < (g.char_map.length : Int) := by
        exact_mod_cast h2
      rw [hidx, if_neg (not_le.mpr h2)]
      constructor
      · refine ⟨fun hc => (nomatch hc), fun hdisj => ?_⟩
        exfalso
        rcases hdisj with h | h | h | h
        · omega
        · omega
        · omega
        · exact absurd h (not_le.mpr h2i)
      · intro i
        constructor
        · intro hc
          obtain rfl : a + b * g.width = i := Option.some.inj hc
          refine ⟨hx0, hy0, hw, h2i, ?_⟩
          push_cast
          ring
        · intro hc
          obtain ⟨-, -, -, -, hi⟩ := hc
          have hieq : i = a + b * g.width := by exact_mod_cast hi
          rw [hieq]

/-- C9: on every grid of positive width, converting a valid index to a
coordinate and back yields the index again. -/
theorem index_to_coordinate_roundtrip (g : Grid) (i : Nat)
    (hw : 0 < g.width) (hi : i < g.char_map.length) :
    g.coordinate_to_index (g.index_to_coordinate i) = some i := by
  unfold Grid.index_to_coordinate Grid.coordinate_to_index
  have hmod : i % g.width < g.width := Nat.mod_lt _ hw
  have hcond : ¬(((i % g.width : Nat) : Int) < 0 ∨ ((i / g.width : Nat) : Int) < 0 ∨
      (g.width : Int) ≤ ((i % g.width : Nat) : Int)) := by
    push_neg
    refine ⟨Int.natCast_nonneg _, Int.natCast_nonneg _, ?_⟩
    exact_mod_cast hmod
  rw [if_neg hcond]
  simp only [Int.toNat_natCast]
  rw [Nat.mod_add_div' i g.width]
  rw [if_neg (by omega)]

/-- Witness for C9 at a concrete grid: a 2×2 grid round-trips index 3. -/
theorem index_to_coordinate_roundtrip_witness :
    0 < (Grid.mk "abcd".toList 2).width ∧ 3 < (Grid.mk "abcd".toList 2).char_map.length ∧
    (Grid.mk "abcd".toList 2).coordinate_to_index
      ((Grid.mk "abcd".toList 2).index_to_coordinate 3) = some 3 :=
  ⟨by decide, by decide,
    index_to_coordinate_roundtrip (Grid.mk "abcd".toList 2) 3 (by decide) (by decide)⟩

/-- Grids produced by `Grid::from_str` always have positive width: the first
kept line is non-empty.  (This is the constructor invariant backing the
positive-width hypothesis of the round-trip theorem: `Grid` has no other
constructor in the source.) -/
theorem from_str_width_pos (s : List Char) (g : Grid)
    (h : Grid.from_str s = some g) : 0 < g.width := by
  unfold Grid.from_str at h
  cases hp : preprocessLines s with
  | nil => rw [hp] at h; cases h
  | cons line rest =>
    rw [hp] at h
    obtain rfl : _ = g := Option.some.inj h
    have hmem : line ∈ List.filter (fun l => !l.isEmpty) ((splitLines s).map trim) := by
      have hmem0 : line ∈ preprocessLines s := by
        rw [hp]
        exact List.mem_cons_self _ _
      simpa [preprocessLines] using hmem0
    have hne := List.of_mem_filter hmem
    cases line with
    | nil => simp at hne
    | cons a l => simp

/-- C4 counterexample: the ragged input `"ab\ncde"` parses successfully into
a grid with 5 cells and width 2, so `len % width = 1 ≠ 0`: `from_str` does
not validate row widths. -/
theorem from_str_ragged_rows :
    ∃ g, Grid.from_str "ab\ncde".toList = some g ∧ g.char_map.length % g.width ≠ 0 :=
  ⟨⟨"abcde".toList, 2⟩, rfl, by decide⟩

/-- The sum of a constant-valued map is the length times the constant. -/
theorem sum_map_const_nat {α : Type} (L : List α) (w : Nat) :
    (L.map (fun _ => w)).sum = L.length * w := by
  induction L with
  | nil => simp
  | cons a l ih => simp [ih, Nat.succ_mul, Nat.add_comm]

/-- C4 amended: on inputs whose trimmed non-empty lines all have the width of
the first line (in particular every well-formed grid input), a successful
`from_str` satisfies `len % width = 0`: the grid consists of whole rows. -/
theorem from_str_whole_rows (s : List Char) (g : Grid)
    (h : Grid.from_str s = some g)
    (hw : ∀ line ∈ preprocessLines s, line.length = g.width) :
    g.char_map.length % g.width = 0 := by
  unfold Grid.from_str at h
  cases hp : preprocessLines s with
  | nil => rw [hp] at h; cases h
  | cons line rest =>
    rw [hp] at h
    obtain rfl : _ = g := Option.some.inj h
    rw [hp] at hw
    simp only [List.length_flatten]
    have hconst : (line :: rest).map List.length =
        (line :: rest).map (fun _ => line.length) := by
      apply List.map_congr_left
      intro l hl
      rw [hw l hl, hw line (List.mem_cons_self _ _)]
    rw [hconst, sum_map_const_nat]
    exact Nat.mul_mod_left _ _

/-- Witness for C4 at a concrete input: `"ab\ncd"` has equal-width rows and
its parsed grid satisfies the whole-rows invariant. -/
theorem from_str_whole_rows_witness :
    Grid.from_str "ab\ncd".toList = some (Grid.mk "abcd".toList 2) ∧
    (∀ line ∈ preprocessLines "ab\ncd".toList,
      line.length = (Grid.mk "abcd".toList 2).width) ∧
    (Grid.mk "abcd".toList 2).char_map.length % (Grid.mk "abcd".toList 2).width = 0 :=
  ⟨rfl, by decide,
    from_str_whole_rows ("ab\ncd".toList) (Grid.mk "abcd".toList 2) rfl (by decide)⟩

/-- Each emitted character strictly shrinks the iterator measure. -/
theorem RouteChars.next_size {rc rc2 : RouteChars} {c : Char}
    (h : rc.next = some (c, rc2)) : rc2.size < rc.size := by
  rcases rc with ⟨route, fin⟩
  cases fin with
  | true => simp [RouteChars.next] at h
  | false =>
    cases route with
    | Empty count =>
      rcases count with - | n
      · simp [RouteChars.next] at h
      · have h2 : rc2 = ⟨.Empty n, false⟩ := by
          have heval : (RouteChars.mk (.Empty (n + 1)) false).next =
              some ('A', ⟨.Empty n, false⟩) := rfl
          rw [heval] at h
          exact (congrArg Prod.snd (Option.some.inj h)).symm
        subst h2
        simp [RouteChars.size]
    | Direct leg =>
      rcases leg with ⟨d, n⟩
      rcases n with - | n
      · have h2 : rc2 = ⟨.Direct ⟨d, 0⟩, true⟩ := by
          have heval : (RouteChars.mk (.Direct ⟨d, 0⟩) false).next =
              some ('A', ⟨.Direct ⟨d, 0⟩, true⟩) := rfl
          rw [heval] at h
          exact (congrArg Prod.snd (Option.some.inj h)).symm
        subst h2
        simp [RouteChars.size]
      · have h2 : rc2 = ⟨.Direct ⟨d, n⟩, false⟩ := by
          have heval : (RouteChars.mk (.Direct ⟨d, n + 1⟩) false).next =
              some (d.symbol, ⟨.Direct ⟨d, n⟩, false⟩) := rfl
          rw [heval] at h
          exact (congrArg Prod.snd (Option.some.inj h)).symm
        subst h2
        simp [RouteChars.size]
    | Segmented l1 l2 rev =>
      rcases l1 with ⟨d1, n1⟩
      rcases l2 with ⟨d2, n2⟩
      rcases n1 with - | n1
      · rcases n2 with - | n2
        · have h2 : rc2 = ⟨.Segmented ⟨d1, 0⟩ ⟨d2, 0⟩ rev, true⟩ := by
            have heval : (RouteChars.mk (.Segmented ⟨d1, 0⟩ ⟨d2, 0⟩ rev) false).next =
                some ('A', ⟨.Segmented ⟨d1, 0⟩ ⟨d2, 0⟩ rev, true⟩) := rfl
            rw [heval] at h
            exact (congrArg Prod.snd (Option.some.inj h)).symm
          subst h2
          simp [RouteChars.size]
        · have h2 : rc2 = ⟨.Segmented ⟨d1, 0⟩ ⟨d2, n2⟩ rev, false⟩ := by
            have heval :
                (RouteChars.mk (.Segmented ⟨d1, 0⟩ ⟨d2, n2 + 1⟩ rev) false).next =
                some (d2.symbol, ⟨.Segmented ⟨d1, 0⟩ ⟨d2, n2⟩ rev, false⟩) := rfl
            rw [heval] at h
            exact (congrArg Prod.snd (Option.some.inj h)).symm
          subst h2
          simp [RouteChars.size]
      · have h2 : rc2 = ⟨.Segmented ⟨d1, n1⟩ ⟨d2, n2⟩ rev, false⟩ := by
          have heval :
              (RouteChars.mk (.Segmented ⟨d1, n1 + 1⟩ ⟨d2, n2⟩ rev) false).next =
              some (d1.symbol, ⟨.Segmented ⟨d1, n1⟩ ⟨d2, n2⟩ rev, false⟩) := rfl
          rw [heval] at h
          exact (congrArg Prod.snd (Option.some.inj h)).symm
        subst h2
        simp [RouteChars.size]

/-- Any fuel above the iterator measure exhausts the iterator the same way. -/
theorem RouteChars.emitFuel_congr (fuel : Nat) :
    ∀ (fuel2 : Nat) (rc : RouteChars), rc.size < fuel → rc.size < fuel2 →
      RouteChars.emitFuel fuel rc = RouteChars.emitFuel fuel2 rc := by
  induction fuel with
  | zero =>
    intro fuel2 rc h1 h2
    omega
  | succ f ih =>
    intro fuel2 rc h1 h2
    cases fuel2 with
    | zero => omega
    | succ f2 =>
      cases hnext : rc.next with
      | none => simp [RouteChars.emitFuel, hnext]
      | some pair =>
        rcases pair with ⟨c, rc2⟩
        have hlt := RouteChars.next_size hnext
        simp only [RouteChars.emitFuel, hnext]
        rw [ih f2 rc2 (by omega) (by omega)]

/-- Unfolding `emit` at an exhausted iterator. -/
theorem RouteChars.emit_none {rc : RouteChars} (h : rc.next = none) :
    rc.emit = [] := by
  unfold RouteChars.emit
  simp [RouteChars.emitFuel, h]

/-- Unfolding `emit` at an emitting iterator. -/
theorem RouteChars.emit_some {rc rc2 : RouteChars} {c : Char}
    (h : rc.next = some (c, rc2)) : rc.emit = c :: rc2.emit := by
  have hlt := RouteChars.next_size h
  have hstep : RouteChars.emitFuel (rc.size + 1) rc =
      c :: RouteChars.emitFuel rc.size rc2 := by
    simp only [RouteChars.emitFuel, h]
  unfold RouteChars.emit
  rw [hstep, RouteChars.emitFuel_congr rc.size (rc2.size + 1) rc2 (by omega) (by omega)]

/-- C10: exhausting `Route::chars` yields exactly `Route::len` characters:
`count` for `Empty(count)`, `distance + 1` for `Direct`, and
`first + second + 1` for `Segmented`, so the length used for pruning equals
the number of keystrokes the route emits. -/
theorem route_chars_emit_length (r : Route) :
    ((r.chars).emit).length = r.len := by
  cases r with
  | Empty count =>
    show (RouteChars.mk (.Empty count) false).emit.length = count
    induction count with
    | zero =>
      rw [@RouteChars.emit_none ⟨.Empty 0, false⟩ rfl]
      rfl
    | succ n ih =>
      rw [@RouteChars.emit_some ⟨.Empty (n + 1), false⟩ ⟨.Empty n, false⟩ 'A' rfl]
      simpa using ih
  | Direct leg =>
    rcases leg with ⟨d, n⟩
    show (RouteChars.mk (.Direct ⟨d, n⟩) false).emit.length = n + 1
    induction n with
    | zero =>
      rw [@RouteChars.emit_some ⟨.Direct ⟨d, 0⟩, false⟩ ⟨.Direct ⟨d, 0⟩, true⟩ 'A' rfl,
        @RouteChars.emit_none ⟨.Direct ⟨d, 0⟩, true⟩ rfl]
      rfl
    | succ n ih =>
      rw [@RouteChars.emit_some ⟨.Direct ⟨d, n + 1⟩, false⟩ ⟨.Direct ⟨d, n⟩, false⟩
        d.symbol rfl]
      simpa using ih
  | Segmented l1 l2 rev =>
    rcases l1 with ⟨d1, n1⟩
    rcases l2 with ⟨d2, n2⟩
    show (RouteChars.mk (.Segmented ⟨d1, n1⟩ ⟨d2, n2⟩ rev) false).emit.length =
      n1 + n2 + 1
    induction n1 with
    | zero =>
      induction n2 with
      | zero =>
        rw [@RouteChars.emit_some ⟨.Segmented ⟨d1, 0⟩ ⟨d2, 0⟩ rev, false⟩
            ⟨.Segmented ⟨d1, 0⟩ ⟨d2, 0⟩ rev, true⟩ 'A' rfl,
          @RouteChars.emit_none ⟨.Segmented ⟨d1, 0⟩ ⟨d2, 0⟩ rev, true⟩ rfl]
        rfl
      | succ m ih2 =>
        rw [@RouteChars.emit_some ⟨.Segmented ⟨d1, 0⟩ ⟨d2, m + 1⟩ rev, false⟩
            ⟨.Segmented ⟨d1, 0⟩ ⟨d2, m⟩ rev, false⟩ d2.symbol rfl]
        simp only [List.length_cons, ih2]
        omega
    | succ n ih =>
      rw [@RouteChars.emit_some ⟨.Segmented ⟨d1, n + 1⟩ ⟨d2, n2⟩ rev, false⟩
          ⟨.Segmented ⟨d1, n⟩ ⟨d2, n2⟩ rev, false⟩ d1.symbol rfl]
      simp only [List.length_cons, ih]
      omega

/-- Part 1 on the five example codes totals 126384. -/
theorem part1_example_total : process_part1 exampleCodes = some 126384 := rfl

/-- The part-1 frontier search emits 68 keystrokes for `029A`. -/
theorem part1_line_029A :
    (part1_line "029A".toList).map List.length = some 68 := rfl

/-- The part-1 frontier search emits 60 keystrokes for `980A`. -/
theorem part1_line_980A :
    (part1_line "980A".toList).map List.length = some 60 := rfl

/-- Part 1 on the single line `430A` scores it with 80 keystrokes. -/
theorem part1_430A : process_part1 ["430A".toList] = some (430 * 80) := rfl

/-- The 76-press sequence types `430A` through the two directional layers. -/
theorem c2OptimalSeq_types_430A :
    typedThroughChain c2OptimalSeq.toList = some "430A".toList := rfl

/-- C2: the claim states the part-1 result is the sum of numeric prefix times
the minimal outer keystroke count for every input line.  The example-set
clauses hold (126384 total, 68 for `029A`, 60 for `980A`), but on the single
line `430A` the code returns `430 * 80` although `c2OptimalSeq` types `430A`
through the two nested layers in 76 keystrokes, so the factor the code uses
is not the minimal count (and the hard-coded five-entry zip additionally
drops every line past the fifth). -/
theorem process_part1_not_minimal :
    process_part1 exampleCodes = some 126384 ∧
    (part1_line "029A".toList).map List.length = some 68 ∧
    (part1_line "980A".toList).map List.length = some 60 ∧
    process_part1 ["430A".toList] = some (430 * 80) ∧
    typedThroughChain c2OptimalSeq.toList = some "430A".toList ∧
    c2OptimalSeq.toList.length = 76 :=
  ⟨part1_example_total, part1_line_029A, part1_line_980A, part1_430A,
    c2OptimalSeq_types_430A, rfl⟩

/-- C3 counterexample: on a slice with `k = 2` reversible routes the
`Combinations` iterator yields 3 values, not `2^2 = 4`; moreover the
`variants = 1` combination reverses both routes (the `current_variance` bit
does not advance after a reversal), so the reversed-then-original assignment
is never produced. -/
theorem combinations_not_exhaustive :
    (c3Parts.filter Route.reversible).length = 2 ∧
    (Combinations.list c3Parts).length = 3 ∧
    (Combinations.list c3Parts).length ≠
      2 ^ (c3Parts.filter Route.reversible).length ∧
    (Combination.new c3Parts 1).emit =
      [Route.Segmented ⟨.South, 1⟩ ⟨.East, 1⟩ true,
       Route.Segmented ⟨.North, 1⟩ ⟨.East, 1⟩ true] :=
  ⟨rfl, rfl, by decide, rfl⟩

/-- C3 amended: for a slice with `k` reversible routes, the `Combinations`
iterator yields exactly `2^(k-1) + 1` pairwise-distinct `Combination` values
when `k ≥ 1` (the bitmask variants `0` through `2^(k-1)` inclusive), and
exactly one value when `k = 0`. -/
theorem combinations_list_count (parts : List Route) :
    (Combinations.list parts).length =
      (if (parts.filter Route.reversible).length = 0 then 1
       else 2 ^ ((parts.filter Route.reversible).length - 1) + 1) ∧
    (Combinations.list parts).Nodup := by
  constructor
  · unfold Combinations.list
    simp only [List.length_map, List.length_range]
    by_cases h : 0 < (parts.filter Route.reversible).length
    · rw [if_pos h, if_neg (by omega)]
      rw [Nat.shiftLeft_eq, one_mul]
    · rw [if_neg h, if_pos (by omega)]
  · unfold Combinations.list
    exact (List.nodup_range _).map
      (fun v1 v2 hv => congrArg Combination.variants hv)

/-- C7: the part-2 computation folds the directional layer expansion 26
times (`for generation in 0..26`), not the 25 of the claim, while part 1
folds it the claimed 2 times; the fold is the generation-indexed iteration
of the inner pop loop. -/
theorem process_part2_generation_count :
    part2_generations = 26 ∧ part1_generations = 2 ∧
    (∀ codes, process_part2 codes = process_part2_gen 26 codes) :=
  ⟨rfl, rfl, fun _ => rfl⟩

/-- A successful `offset_index` lands strictly inside the cell list. -/
theorem offset_index_lt {g : Grid} {i : Nat} {off : Coordinate} {q : Nat}
    (h : g.offset_index i off = some q) : q < g.char_map.length := by
  unfold Grid.offset_index Grid.coordinate_to_index at h
  dsimp only at h
  split_ifs at h
  obtain rfl := Option.some.inj h
  omega

/-- Reachable cells are in bounds (given an in-bounds start). -/
theorem reachN_lt {g : Grid} {isWall : Char → Bool} {start n p : Nat}
    (hstart : start < g.char_map.length)
    (h : ReachN g isWall start n p) : p < g.char_map.length := by
  induction h with
  | refl => exact hstart
  | step hr hadj ih =>
    obtain ⟨⟨dir, hoff⟩, -⟩ := hadj
    exact offset_index_lt hoff

/-- Only the start is reachable in zero steps. -/
theorem reachN_zero {g : Grid} {isWall : Char → Bool} {start p : Nat}
    (h : ReachN g isWall start 0 p) : p = start := by
  cases h
  rfl

/-- A cell reachable in `n + 1` steps has a predecessor reachable in `n`. -/
theorem reachN_succ {g : Grid} {isWall : Char → Bool} {start n q : Nat}
    (h : ReachN g isWall start (n + 1) q) :
    ∃ p, ReachN g isWall start n p ∧ FloodAdj g isWall p q := by
  cases h with
  | step hr hadj => exact ⟨_, hr, hadj⟩

/-- Reading a just-written list cell. -/
theorem getD_set_self {l : List Nat} {i v : Nat} (h : i < l.length) :
    (l.set i v).getD i 0 = v := by
  induction l generalizing i with
  | nil => simp at h
  | cons a tl ih =>
    cases i with
    | zero => rfl
    | succ j => exact ih (Nat.lt_of_succ_lt_succ h)

/-- Reading any other cell after a write. -/
theorem getD_set_ne {l : List Nat} {i j v : Nat} (h : i ≠ j) :
    (l.set i v).getD j 0 = l.getD j 0 := by
  induction l generalizing i j with
  | nil => rfl
  | cons a tl ih =>
    cases i with
    | zero =>
      cases j with
      | zero => exact absurd rfl h
      | succ j2 => rfl
    | succ i2 =>
      cases j with
      | zero => rfl
      | succ j2 => exact ih (fun he => h (congrArg Nat.succ he))

/-- Reading a replicated list. -/
theorem getD_replicate {n x i : Nat} (h : i < n) :
    (List.replicate n x).getD i 0 = x := by
  induction n generalizing i with
  | zero => omega
  | succ m ih =>
    cases i with
    | zero => rfl
    | succ j => exact ih (Nat.lt_of_succ_lt_succ h)

/-- At most every cell is reached. -/
theorem labeledCount_le (distances : List Nat) :
    labeledCount distances ≤ distances.length :=
  List.length_filter_le _ _

/-- Writing a real distance over the sentinel reaches exactly one new cell. -/
theorem labeledCount_set {l : List Nat} {i v : Nat} (h : i < l.length)
    (hold : l.getD i 0 = USIZE_MAX) (hnew : v ≠ USIZE_MAX) :
    labeledCount (l.set i v) = labeledCount l + 1 := by
  induction l generalizing i with
  | nil => simp at h
  | cons a tl ih =>
    cases i with
    | zero =>
      obtain rfl : a = USIZE_MAX := hold
      simp only [labeledCount, List.set, List.filter_cons]
      simp [hnew]
    | succ j =>
      have step := ih (Nat.lt_of_succ_lt_succ h) hold
      simp only [labeledCount, List.set, List.filter_cons] at step ⊢
      by_cases ha : (a != USIZE_MAX) = true
      · simp only [ha, if_true, List.length_cons]
        simpa [labeledCount] using step
      · simp only [Bool.not_eq_true] at ha
        simp only [ha, Bool.false_eq_true, if_false]
        simpa [labeledCount] using step

/-- The untouched sentinel array reaches nothing. -/
theorem labeledCount_replicate (n : Nat) :
    labeledCount (List.replicate n USIZE_MAX) = 0 := by
  induction n with
  | zero => rfl
  | succ m _ => simp [labeledCount, List.replicate_succ, List.filter_cons]

/-- Every cell whose minimal distance is at most the current frontier
distance `d` has already been reached: frontier cells wait with distances at
least `d`, so a cell at distance below `d` has all its neighbours reached,
and an induction along a shortest path pulls every near cell in. -/
theorem labeled_below {g : Grid} {isWall : Char → Bool} {start p d : Nat}
    {distances : List Nat} {queue : List (Nat × Nat)}
    (hstart : start < g.char_map.length)
    (hmid : FloodMid g isWall start p d distances queue)
    (hpd : distances.getD p 0 = d) :
    ∀ k, k ≤ d → ∀ q, q < g.char_map.length →
      IsLeast {n | ReachN g isWall start n q} k →
      distances.getD q 0 ≠ USIZE_MAX := by
  intro k
  induction k using Nat.strong_induction_on with
  | _ k ih =>
    intro hkd q hq hleast
    rcases k with - | k2
    · obtain rfl := reachN_zero hleast.1
      rw [hmid.start_zero]
      simp [USIZE_MAX]
    · obtain ⟨r2, hr2, hadj⟩ := reachN_succ hleast.1
      have hne : {n | ReachN g isWall start n r2}.Nonempty := ⟨k2, hr2⟩
      have hleast2 : IsLeast {n | ReachN g isWall start n r2}
          (sInf {n | ReachN g isWall start n r2}) :=
        ⟨Nat.sInf_mem hne, fun m hm => Nat.sInf_le hm⟩
      have hk3le : sInf {n | ReachN g isWall start n r2} ≤ k2 := Nat.sInf_le hr2
      have hr2len : r2 < g.char_map.length := reachN_lt hstart hr2
      have hlbl2 : distances.getD r2 0 ≠ USIZE_MAX :=
        ih _ (by omega) (by omega) r2 hr2len hleast2
      have hstored2 : distances.getD r2 0 = sInf {n | ReachN g isWall start n r2} :=
        (hmid.sound r2 hr2len hlbl2).unique hleast2
      have hr2p : r2 ≠ p := by
        intro he
        rw [he] at hstored2 hk3le
        rw [hpd] at hstored2
        omega
      rcases hmid.closure r2 hr2len hlbl2 hr2p with hnb | hentry
      · exact hnb q hadj
      · have hge := hmid.qlow _ hentry
        rw [hstored2] at hge
        omega

/-- Expanding one direction out of the popped cell `p` (stored distance `d`)
preserves the mid-expansion invariant.  Moreover the stored distances of
already reached cells are untouched, a valid non-wall target of the
inspected direction ends up reached, and the queue grows only by appended
pushes, in lockstep with the reached-cell count. -/
theorem floodExpand_step {g : Grid} {isWall : Char → Bool} {start p d : Nat}
    {distances : List Nat} {queue : List (Nat × Nat)}
    {dist2 : List Nat} {queue2 : List (Nat × Nat)}
    (hstart : start < g.char_map.length) (hlen : g.char_map.length < USIZE_MAX)
    (hmid : FloodMid g isWall start p d distances queue)
    (hpd : distances.getD p 0 = d) (hplen : p < g.char_map.length)
    (hdm : d ≠ USIZE_MAX) (direction : Direction)
    (hT : floodExpand g isWall p (d + 1) (distances, queue) direction =
      (dist2, queue2)) :
    FloodMid g isWall start p d dist2 queue2 ∧
    (∀ r, distances.getD r 0 ≠ USIZE_MAX →
      dist2.getD r 0 = distances.getD r 0) ∧
    (∀ q2, g.offset_index p direction.toCoordinate = some q2 →
      isWall (g.char_map.getD q2 ' ') = false →
      dist2.getD q2 0 ≠ USIZE_MAX) ∧
    (∃ pushes, queue2 = queue ++ pushes ∧
      labeledCount dist2 = labeledCount distances + pushes.length) := by
  have hpMAX : distances.getD p 0 ≠ USIZE_MAX := by rw [hpd]; exact hdm
  have hd1 : d + 1 ≤ labeledCount distances := by
    have := hmid.count p hplen hpMAX
    omega
  have hd1MAX : d + 1 < USIZE_MAX := by
    have h1 := labeledCount_le distances
    have h2 := hmid.len_eq
    omega
  cases hoff : g.offset_index p direction.toCoordinate with
  | none =>
    simp only [floodExpand, hoff] at hT
    injection hT with h1 h2
    subst h1
    subst h2
    refine ⟨hmid, fun r h => rfl, ?_, [], by simp, by simp⟩
    intro q2 hoff2 hwall2
    exact absurd hoff2 (by simp)
  | some position2 =>
    simp only [floodExpand, hoff] at hT
    have hq2len : position2 < g.char_map.length := offset_index_lt hoff
    have hlen2 : position2 < distances.length := by
      rw [hmid.len_eq]
      exact hq2len
    split_ifs at hT with hcond hwall
    · -- in-range improvement but the target is a wall: no change
      injection hT with h1 h2
      subst h1
      subst h2
      refine ⟨hmid, fun r h => rfl, ?_, [], by simp, by simp⟩
      intro q2 hoff2 hwall2
      obtain rfl : position2 = q2 := Option.some.inj hoff2
      rw [hwall] at hwall2
      exact absurd hwall2 (by simp)
    · -- a real push
      injection hT with h1 h2
      subst h1
      subst h2
      have hwallf : isWall (g.char_map.getD position2 ' ') = false := by
        revert hwall
        cases isWall (g.char_map.getD position2 ' ') <;> simp
      have hsoundp : IsLeast {n | ReachN g isWall start n p} d :=
        hpd ▸ hmid.sound p hplen hpMAX
      have hadj : FloodAdj g isWall p position2 := ⟨⟨direction, hoff⟩, hwallf⟩
      have hmem : ReachN g isWall start (d + 1) position2 :=
        ReachN.step hsoundp.1 hadj
      have hq2MAX : distances.getD position2 0 = USIZE_MAX := by
        by_contra hne
        have hle := (hmid.sound position2 hq2len hne).2 hmem
        omega
      have hq2start : position2 ≠ start := by
        intro he
        rw [he, hmid.start_zero] at hq2MAX
        simp [USIZE_MAX] at hq2MAX
      have hq2p : position2 ≠ p := by
        intro he
        rw [he, hpd] at hq2MAX
        exact hdm hq2MAX
      have hleast : IsLeast {n | ReachN g isWall start n position2} (d + 1) := by
        refine ⟨hmem, ?_⟩
        intro m hm
        by_contra hlt
        have hnem : {n | ReachN g isWall start n position2}.Nonempty := ⟨m, hm⟩
        have hsle : sInf {n | ReachN g isWall start n position2} ≤ m :=
          Nat.sInf_le hm
        have := labeled_below hstart hmid hpd
          (sInf {n | ReachN g isWall start n position2}) (by omega)
          position2 hq2len ⟨Nat.sInf_mem hnem, fun b hb => Nat.sInf_le hb⟩
        exact this hq2MAX
      have hlc : labeledCount (distances.set position2 (d + 1)) =
          labeledCount distances + 1 :=
        labeledCount_set hlen2 hq2MAX (by omega)
      refine ⟨?_, ?_, ?_, [(position2, d + 1)], rfl, by rw [hlc]; rfl⟩
      · refine ⟨?_, ?_, ?_, ?_, ?_, ?_, ?_, ?_, ?_⟩
        · rw [List.length_set]
          exact hmid.len_eq
        · rw [getD_set_ne hq2start]
          exact hmid.start_zero
        · intro e he
          rcases List.mem_append.1 he with hq | hnew
          · obtain ⟨he1, he2, he3⟩ := hmid.qmem e hq
            have hne1 : e.1 ≠ position2 := by
              intro hh
              rw [hh, hq2MAX] at he2
              exact he3 he2.symm
            exact ⟨he1, by rw [getD_set_ne (fun hh => hne1 hh.symm)]; exact he2, he3⟩
          · obtain rfl : e = (position2, d + 1) := by simpa using hnew
            exact ⟨hq2len, getD_set_self hlen2, by omega⟩
        · intro e he
          rcases List.mem_append.1 he with hq | hnew
          · exact hmid.qlow e hq
          · obtain rfl : e = (position2, d + 1) := by simpa using hnew
            omega
        · intro e he
          rcases List.mem_append.1 he with hq | hnew
          · exact hmid.qhigh e hq
          · obtain rfl : e = (position2, d + 1) := by simpa using hnew
            omega
        · rw [List.map_append]
          refine List.pairwise_append.2 ⟨hmid.qsorted, by simp, ?_⟩
          intro a ha b hb
          obtain ⟨e, he, rfl⟩ := List.mem_map.1 ha
          obtain rfl : b = d + 1 := by simpa using hb
          exact hmid.qhigh e he
        · intro r hr hne2
          by_cases hcase : r = position2
          · subst hcase
            rw [getD_set_self hlen2]
            exact hleast
          · rw [getD_set_ne (fun hh => hcase hh.symm)] at hne2 ⊢
            exact hmid.sound r hr hne2
        · intro r hr hne2 hrp
          by_cases hcase : r = position2
          · subst hcase
            right
            rw [getD_set_self hlen2]
            simp
          · rw [getD_set_ne (fun hh => hcase hh.symm)] at hne2
            rcases hmid.closure r hr hne2 hrp with hnb | hent
            · left
              intro q3 hadj3
              by_cases hq3 : q3 = position2
              · subst hq3
                rw [getD_set_self hlen2]
                omega
              · rw [getD_set_ne (fun hh => hq3 hh.symm)]
                exact hnb q3 hadj3
            · right
              rw [getD_set_ne (fun hh => hcase hh.symm)]
              exact List.mem_append_left _ hent
        · intro r hr hne2
          rw [hlc]
          by_cases hcase : r = position2
          · subst hcase
            rw [getD_set_self hlen2]
            omega
          · rw [getD_set_ne (fun hh => hcase hh.symm)] at hne2 ⊢
            have := hmid.count r hr hne2
            omega
      · intro r hner
        have hrne : position2 ≠ r := by
          intro hh
          rw [← hh] at hner
          exact hner hq2MAX
        rw [getD_set_ne hrne]
      · intro q2 hoff2 hwall2
        obtain rfl : position2 = q2 := Option.some.inj hoff2
        rw [getD_set_self hlen2]
        omega
    · -- no improvement: the target already carries a distance `≤ d + 1`
      injection hT with h1 h2
      subst h1
      subst h2
      refine ⟨hmid, fun r h => rfl, ?_, [], by simp, by simp⟩
      intro q2 hoff2 hwall2
      obtain rfl : position2 = q2 := Option.some.inj hoff2
      omega

/-- Folding the neighbour expansion over any direction list preserves the
mid-expansion invariant, keeps already reached cells untouched, reaches every
valid non-wall target of the inspected directions, and grows the queue by as
many entries as cells become reached. -/
theorem flood_fold {g : Grid} {isWall : Char → Bool} {start p d : Nat}
    (hstart : start < g.char_map.length) (hlen : g.char_map.length < USIZE_MAX)
    (hplen : p < g.char_map.length) (hdm : d ≠ USIZE_MAX) :
    ∀ (dirs : List Direction) (distances : List Nat) (queue : List (Nat × Nat))
      (dist2 : List Nat) (queue2 : List (Nat × Nat)),
    FloodMid g isWall start p d distances queue →
    distances.getD p 0 = d →
    dirs.foldl (floodExpand g isWall p (d + 1)) (distances, queue) =
      (dist2, queue2) →
    FloodMid g isWall start p d dist2 queue2 ∧
    (∀ r, distances.getD r 0 ≠ USIZE_MAX →
      dist2.getD r 0 = distances.getD r 0) ∧
    (∀ dir ∈ dirs, ∀ q2, g.offset_index p dir.toCoordinate = some q2 →
      isWall (g.char_map.getD q2 ' ') = false →
      dist2.getD q2 0 ≠ USIZE_MAX) ∧
    (∃ k, queue2.length = queue.length + k ∧
      labeledCount dist2 = labeledCount distances + k) := by
  intro dirs
  induction dirs with
  | nil =>
    intro distances queue dist2 queue2 hmid hpd hT
    simp only [List.foldl_nil] at hT
    injection hT with h1 h2
    subst h1
    subst h2
    exact ⟨hmid, fun r h => rfl, by simp, 0, by simp, by simp⟩
  | cons dir rest ih =>
    intro distances queue dist2 queue2 hmid hpd hT
    simp only [List.foldl_cons] at hT
    have hpMAX : distances.getD p 0 ≠ USIZE_MAX := by rw [hpd]; exact hdm
    have hstep := floodExpand_step hstart hlen hmid hpd hplen hdm dir rfl
    obtain ⟨hmidS, hmonoS, htgtS, pushes, hqS, hlcS⟩ := hstep
    have hpd2 : (floodExpand g isWall p (d + 1) (distances, queue) dir).1.getD
        p 0 = d := (hmonoS p hpMAX).trans hpd
    have hrest := ih _ _ dist2 queue2 hmidS hpd2 hT
    obtain ⟨hmid2, hmono2, htgt2, k, hq2, hlc2⟩ := hrest
    refine ⟨hmid2, ?_, ?_, pushes.length + k, ?_, ?_⟩
    · intro r h
      have h1 := hmonoS r h
      have h1ne := ne_of_eq_of_ne h1 h
      exact (hmono2 r h1ne).trans h1
    · intro dir2 hdir2 q2 hoff2 hwall2
      rcases List.mem_cons.1 hdir2 with rfl | hmem
      · have hS := htgtS q2 hoff2 hwall2
        exact ne_of_eq_of_ne (hmono2 q2 hS) hS
      · exact htgt2 dir2 hmem q2 hoff2 hwall2
    · rw [hq2, hqS, List.length_append]
      omega
    · rw [hlc2, hlcS]
      omega

/-- Every direction is in `Direction::ALL`. -/
theorem Direction.mem_ALL (d : Direction) : d ∈ Direction.ALL := by
  cases d <;> simp [Direction.ALL]

/-- Popping the front entry of the queue turns the between-iterations
invariant into the mid-expansion invariant for the popped cell. -/
theorem floodTop_pop {g : Grid} {isWall : Char → Bool} {start : Nat}
    {distances : List Nat} {p d : Nat} {rest : List (Nat × Nat)}
    (htop : FloodTop g isWall start distances ((p, d) :: rest)) :
    FloodMid g isWall start p d distances rest ∧
    distances.getD p 0 = d ∧ p < g.char_map.length ∧ d ≠ USIZE_MAX := by
  have hhead := htop.qmem (p, d) (List.mem_cons_self _ _)
  refine ⟨⟨htop.len_eq, htop.start_zero, ?_, ?_, ?_, ?_, htop.sound, ?_,
    htop.count⟩, hhead.2.1, hhead.1, hhead.2.2⟩
  · intro e he
    exact htop.qmem e (List.mem_cons_of_mem _ he)
  · intro e he
    have hs := htop.qsorted
    rw [List.map_cons] at hs
    exact List.rel_of_sorted_cons hs e.2 (List.mem_map.2 ⟨e, he, rfl⟩)
  · intro e he
    exact htop.qband e (List.mem_cons_of_mem _ he) (p, d) (List.mem_cons_self _ _)
  · have hs := htop.qsorted
    rw [List.map_cons] at hs
    exact hs.of_cons
  · intro r hr hne hrp
    rcases htop.closure r hr hne with hnb | hent
    · exact Or.inl hnb
    · rcases List.mem_cons.1 hent with heq | hm
      · exact absurd (congrArg Prod.fst heq) hrp
      · exact Or.inr hm

/-- Once all neighbours of the expanded cell are reached, the mid-expansion
invariant gives back the between-iterations invariant. -/
theorem floodTop_rebuild {g : Grid} {isWall : Char → Bool} {start p d : Nat}
    {distances : List Nat} {queue : List (Nat × Nat)}
    (hmid : FloodMid g isWall start p d distances queue)
    (hnb : ∀ q2, FloodAdj g isWall p q2 → distances.getD q2 0 ≠ USIZE_MAX) :
    FloodTop g isWall start distances queue := by
  refine ⟨hmid.len_eq, hmid.start_zero, hmid.qmem, ?_, hmid.qsorted,
    hmid.sound, ?_, hmid.count⟩
  · intro e1 he1 e2 he2
    have h1 := hmid.qhigh e1 he1
    have h2 := hmid.qlow e2 he2
    omega
  · intro r hr hne
    by_cases hcase : r = p
    · subst hcase
      exact Or.inl hnb
    · exact hmid.closure r hr hne hcase

/-- The flood loop is correct from any state satisfying the invariant, given
fuel above the number of unreached cells plus the queue length (each
iteration pops one entry and pushes one entry per newly reached cell). -/
theorem floodLoop_correct {g : Grid} {isWall : Char → Bool} {start : Nat}
    (hstart : start < g.char_map.length)
    (hlen : g.char_map.length < USIZE_MAX) :
    ∀ (fuel : Nat) (distances : List Nat) (queue : List (Nat × Nat)),
    FloodTop g isWall start distances queue →
    g.char_map.length - labeledCount distances + queue.length < fuel →
    FloodResult g isWall start (floodLoop g isWall fuel distances queue) := by
  intro fuel
  induction fuel with
  | zero =>
    intro distances queue htop hW
    omega
  | succ f ih =>
    intro distances queue htop hW
    cases queue with
    | nil =>
      show FloodResult g isWall start distances
      unfold FloodResult
      have hreach : ∀ n q, ReachN g isWall start n q →
          distances.getD q 0 ≠ USIZE_MAX := by
        intro n q h
        induction h with
        | refl =>
          rw [htop.start_zero]
          simp [USIZE_MAX]
        | step hr hadj ih2 =>
          have hp2len := reachN_lt hstart hr
          rcases htop.closure _ hp2len ih2 with hnb | hent
          · exact hnb _ hadj
          · exact absurd hent (List.not_mem_nil _)
      refine ⟨htop.len_eq, htop.start_zero, ?_⟩
      intro p2 hp2
      constructor
      · rintro ⟨n, hn⟩
        exact htop.sound p2 hp2 (hreach n p2 hn)
      · intro hnot
        by_contra hne
        exact hnot ⟨_, (htop.sound p2 hp2 hne).1⟩
    | cons head rest =>
      obtain ⟨p, d⟩ := head
      obtain ⟨hmid, hpd, hplen, hdm⟩ := floodTop_pop htop
      have hfold := flood_fold hstart hlen hplen hdm Direction.ALL distances rest
        (Direction.ALL.foldl (floodExpand g isWall p (d + 1)) (distances, rest)).1
        (Direction.ALL.foldl (floodExpand g isWall p (d + 1)) (distances, rest)).2
        hmid hpd rfl
      obtain ⟨hmidF, hmonoF, htgtF, k, hqlen, hlc⟩ := hfold
      have hnb : ∀ q2, FloodAdj g isWall p q2 →
          (Direction.ALL.foldl (floodExpand g isWall p (d + 1))
            (distances, rest)).1.getD q2 0 ≠ USIZE_MAX := by
        rintro q2 ⟨⟨dir, hoff⟩, hwall⟩
        exact htgtF dir (Direction.mem_ALL dir) q2 hoff hwall
      have htop2 := floodTop_rebuild hmidF hnb
      have hlab_le : labeledCount
          (Direction.ALL.foldl (floodExpand g isWall p (d + 1))
            (distances, rest)).1 ≤ g.char_map.length := by
        have h1 := labeledCount_le
          (Direction.ALL.foldl (floodExpand g isWall p (d + 1))
            (distances, rest)).1
        rw [hmidF.len_eq] at h1
        exact h1
      have h2 : labeledCount distances + k ≤ g.char_map.length := by
        rw [← hlc]
        exact hlab_le
      have hWnext : g.char_map.length - labeledCount
          (Direction.ALL.foldl (floodExpand g isWall p (d + 1))
            (distances, rest)).1 +
          (Direction.ALL.foldl (floodExpand g isWall p (d + 1))
            (distances, rest)).2.length < f := by
        rw [hlc, hqlen]
        simp only [List.length_cons] at hW
        omega
      exact ih
        (Direction.ALL.foldl (floodExpand g isWall p (d + 1)) (distances, rest)).1
        (Direction.ALL.foldl (floodExpand g isWall p (d + 1)) (distances, rest)).2
        htop2 hWnext

/-- C6: for every grid, valid start index and wall predicate (on any grid
small enough to exist in a real address space, `len < usize::MAX`),
`Grid::flood` returns one entry per cell, `0` at the start, the minimal
number of wall-avoiding 4-neighbour steps from the start on every reachable
cell, and the `usize::MAX` sentinel on every unreachable cell. -/
theorem flood_spec (g : Grid) (isWall : Char → Bool) (start : Nat)
    (hstart : start < g.char_map.length)
    (hlen : g.char_map.length < USIZE_MAX) :
    (g.flood start isWall).length = g.char_map.length ∧
    (g.flood start isWall).getD start 0 = 0 ∧
    ∀ p, p < g.char_map.length →
      ((∃ n, ReachN g isWall start n p) →
        IsLeast {n | ReachN g isWall start n p} ((g.flood start isWall).getD p 0)) ∧
      ((¬ ∃ n, ReachN g isWall start n p) →
        (g.flood start isWall).getD p 0 = USIZE_MAX) := by
  have hlrep : start < (List.replicate g.char_map.length USIZE_MAX).length := by
    rw [List.length_replicate]
    exact hstart
  have hgd0 : ((List.replicate g.char_map.length USIZE_MAX).set start 0).getD
      start 0 = 0 := getD_set_self hlrep
  have h0MAX : (0 : Nat) ≠ USIZE_MAX := by simp [USIZE_MAX]
  have hlc0 : labeledCount
      ((List.replicate g.char_map.length USIZE_MAX).set start 0) = 1 := by
    rw [labeledCount_set hlrep (getD_replicate hstart) h0MAX,
      labeledCount_replicate]
  have hstored : ∀ r, r < g.char_map.length →
      ((List.replicate g.char_map.length USIZE_MAX).set start 0).getD r 0 ≠
        USIZE_MAX →
      r = start := by
    intro r hr hne
    by_contra hcase
    rw [getD_set_ne (fun hh => hcase hh.symm), getD_replicate hr] at hne
    exact hne rfl
  have hleast0 : IsLeast {n | ReachN g isWall start n start} 0 :=
    ⟨ReachN.refl, fun m hm => Nat.zero_le m⟩
  have htop : FloodTop g isWall start
      ((List.replicate g.char_map.length USIZE_MAX).set start 0)
      [(start, 0)] := by
    refine ⟨?_, hgd0, ?_, ?_, ?_, ?_, ?_, ?_⟩
    · rw [List.length_set, List.length_replicate]
    · intro e he
      obtain rfl : e = (start, 0) := by simpa using he
      exact ⟨hstart, hgd0, h0MAX⟩
    · intro e1 he1 e2 he2
      obtain rfl : e1 = (start, 0) := by simpa using he1
      simp
    · simp
    · intro r hr hne
      obtain rfl := hstored r hr hne
      rw [hgd0]
      exact hleast0
    · intro r hr hne
      obtain rfl := hstored r hr hne
      right
      rw [hgd0]
      simp
    · intro r hr hne
      obtain rfl := hstored r hr hne
      rw [hgd0, hlc0]
  have hW : g.char_map.length -
      labeledCount ((List.replicate g.char_map.length USIZE_MAX).set start 0) +
      [(start, 0)].length < g.char_map.length + 2 := by
    rw [hlc0]
    simp only [List.length_cons, List.length_nil]
    omega
  exact floodLoop_correct hstart hlen (g.char_map.length + 2) _ _ htop hW

/-- The flood specification instantiated on a concrete 3×3 grid with walls,
discharging both side conditions. -/
theorem flood_spec_witness :
    0 < (Grid.mk "S.#..##..".toList 3).char_map.length ∧
    (Grid.mk "S.#..##..".toList 3).char_map.length < USIZE_MAX ∧
    FloodResult (Grid.mk "S.#..##..".toList 3) (fun c => c == '#') 0
      ((Grid.mk "S.#..##..".toList 3).flood 0 (fun c => c == '#')) :=
  ⟨by decide, by decide,
    flood_spec (Grid.mk "S.#..##..".toList 3) (fun c => c == '#') 0
      (by decide) (by decide)⟩

end AoC

